import Mathlib

/-!
Verification of the invite-checker program against its specification.

The development shallowly embeds `checker.py`:
* `normalize_invite` embeds the regex-based invite-code extraction
  (`re.search` over an all-optional pattern, modelled by an explicit
  backtracking matcher over character lists);
* `handle_result`, `check_invite`, `run_checker_once` embed the
  classification pipeline as explicit state passing over `CheckerState`
  (counters, the guild-id dedup set, and the append-only output files);
* network I/O is abstracted by an environment `String → Option InviteResponse`
  giving, per invite code, either the parsed 200-response JSON object or
  `none` for the transport/parse failures caught inside `send_request`;
* a small two-worker interleaving model captures the thread-pool dispatch
  for the guild-identity race property.
-/

namespace InviteChecker

/-! ## Identifier normalizer (`normalize_invite`, checker.py lines 63-77)

The Python code runs `re.search` with the pattern

  (?:https?://)?(?:www\.)?(?:discord(?:app)?\.com/invite/|disco?d\.gg/)?([A-Za-z0-9-]+)(?:/)?$

on the stripped line.  We model `re.search` directly: try every start
position from the left; at each position try the optional literal prefixes
in the engine's backtracking order, then require one-or-more code
characters (the captured group) followed by an optional `/` at the end of
the string.  (Inputs reaching this function are single stripped lines, so
the `$`-before-final-newline subtlety of Python regexes cannot arise:
a stripped string never ends in a newline.) -/

/-- Characters matched by `[A-Za-z0-9-]`. -/
def isCodeChar (c : Char) : Bool := c.isAlphanum || c == '-'

/-- ASCII whitespace stripped by Python's `str.strip()`. -/
def isPySpace (c : Char) : Bool :=
  c == ' ' || c == '\t' || c == '\n' || c == '\r' || c == '\x0b' || c == '\x0c'

/-- Python `str.strip()` on a character list. -/
def pyStrip (l : List Char) : List Char :=
  ((l.dropWhile isPySpace).reverse.dropWhile isPySpace).reverse

/-- Consume a literal off the front of the input, as the regex engine does
for a literal alternative. -/
def stripLit : List Char → List Char → Option (List Char)
  | [], ds => some ds
  | _ :: _, [] => none
  | a :: as, d :: ds => if a = d then stripLit as ds else none

/-- The `(?:https?://)?` alternatives, in greedy backtracking order. -/
def protoAlts : List (List Char) := ["https://".data, "http://".data]

/-- The `(?:www\.)?` alternative. -/
def wwwAlts : List (List Char) := ["www.".data]

/-- The `(?:discord(?:app)?\.com/invite/|disco?d\.gg/)?` alternatives, in
greedy backtracking order.  Note the source pattern spells the short
domain `disco?d\.gg` (matching `discod.gg` / `discd.gg`), not
`discord.gg`. -/
def domainAlts : List (List Char) :=
  ["discordapp.com/invite/".data, "discord.com/invite/".data,
   "discod.gg/".data, "discd.gg/".data]

/-- All remainders reachable from `ds` through an optional literal group:
each matching alternative (consumed), then the skip case, in backtracking
order. -/
def optAlts (alts : List (List Char)) (ds : List Char) : List (List Char) :=
  (alts.filterMap fun a => stripLit a ds) ++ [ds]

/-- All remainders reachable through the three optional prefix groups, in
backtracking order. -/
def candidates (ds : List Char) : List (List Char) :=
  (optAlts protoAlts ds).flatMap fun d1 =>
    (optAlts wwwAlts d1).flatMap fun d2 =>
      optAlts domainAlts d2

/-- Match `([A-Za-z0-9-]+)(?:/)?$` against the whole remainder, returning
the captured group. -/
def matchCore (ds : List Char) : Option (List Char) :=
  let run := ds.takeWhile isCodeChar
  let rest := ds.dropWhile isCodeChar
  if run = [] then none
  else
    match rest with
    | [] => some run
    | ['/'] => some run
    | _ => none

/-- Try the whole pattern at one start position: first backtracking success
over the optional-prefix remainders. -/
def matchAt (ds : List Char) : Option (List Char) :=
  (candidates ds).findSome? matchCore

/-- `re.search`: try each start position from the left, returning the first
position's captured group. -/
def reSearch : List Char → Option (List Char)
  | [] => matchAt []
  | c :: cs =>
    match matchAt (c :: cs) with
    | some g => some g
    | none => reSearch cs

/-- `normalize_invite` on character lists: strip, reject blank input, then
search with the pattern. -/
def normalize_invite_chars (l : List Char) : Option (List Char) :=
  let t := pyStrip l
  if t = [] then none else reSearch t

/-- `normalize_invite` (checker.py lines 63-77). -/
def normalize_invite (s : String) : Option String :=
  (normalize_invite_chars s.data).map fun g => String.mk g

example : normalize_invite "https://discord.com/invite/abc123/" = some "abc123" := by decide
example : normalize_invite "  abc-123 " = some "abc-123" := by decide
example : normalize_invite "www.discod.gg/xyz" = some "xyz" := by decide
example : normalize_invite "https://discord.gg/xyz" = some "xyz" := by decide
example : normalize_invite "hello world" = some "world" := by decide
example : normalize_invite "   " = none := by decide
example : normalize_invite "abc//" = none := by decide

/-! ## Characterization of the search

The all-optional pattern makes `re.search` succeed on far more than the
documented shapes: a match exists exactly when the string ends in a
nonempty run of code characters followed by at most one `/`, and the
captured group is that maximal trailing run.  `Decomp ds g` states that
`g` is such a trailing run of `ds`. -/

/-- The optional trailing slash after the captured group. -/
def TailOpt (t : List Char) : Prop := t = [] ∨ t = ['/']

/-- Text that is empty or whose last character is not a code character. -/
def NonCodeLast (x : List Char) : Prop :=
  x = [] ∨ ∃ c, x.getLast? = some c ∧ isCodeChar c = false

/-- `g` is the maximal trailing code-character run of `ds`, up to one
trailing slash. -/
def Decomp (ds g : List Char) : Prop :=
  g ≠ [] ∧ g.all isCodeChar ∧
    ∃ x t, TailOpt t ∧ NonCodeLast x ∧ ds = x ++ g ++ t

theorem stripLit_eq_some {a : List Char} :
    ∀ {ds e : List Char}, stripLit a ds = some e ↔ ds = a ++ e := by
  induction a with
  | nil =>
    intro ds e
    simp [stripLit]
  | cons c cs ih =>
    intro ds e
    cases ds with
    | nil => simp [stripLit]
    | cons d ds' =>
      by_cases hcd : c = d
      · subst hcd
        simp [stripLit, ih]
      · simp [stripLit, hcd, Ne.symm hcd]

theorem takeWhile_append_of_all {p : Char → Bool} :
    ∀ {l1 l2 : List Char}, l1.all p → (l1 ++ l2).takeWhile p = l1 ++ l2.takeWhile p := by
  intro l1
  induction l1 with
  | nil => intro l2 _; rfl
  | cons c cs ih =>
    intro l2 h
    simp only [List.all_cons, Bool.and_eq_true] at h
    simp [List.takeWhile_cons, h.1, ih h.2]

theorem dropWhile_append_of_all {p : Char → Bool} :
    ∀ {l1 l2 : List Char}, l1.all p → (l1 ++ l2).dropWhile p = l2.dropWhile p := by
  intro l1
  induction l1 with
  | nil => intro l2 _; rfl
  | cons c cs ih =>
    intro l2 h
    simp only [List.all_cons, Bool.and_eq_true] at h
    simp [List.dropWhile_cons, h.1, ih h.2]

theorem all_takeWhile (p : Char → Bool) :
    ∀ l : List Char, (l.takeWhile p).all p = true := by
  intro l
  induction l with
  | nil => rfl
  | cons c cs ih =>
    by_cases h : p c
    · simp [List.takeWhile_cons, h, ih]
    · simp [List.takeWhile_cons, h]

theorem isCodeChar_slash : isCodeChar '/' = false := by decide

theorem matchCore_eq_some {ds g : List Char} :
    matchCore ds = some g ↔
      g ≠ [] ∧ g.all isCodeChar ∧ (ds = g ∨ ds = g ++ ['/']) := by
  constructor
  · intro h
    simp only [matchCore] at h
    by_cases hrun : ds.takeWhile isCodeChar = []
    · simp [hrun] at h
    · rw [if_neg hrun] at h
      have hsplit := List.takeWhile_append_dropWhile isCodeChar ds
      split at h
      · rename_i heq
        injection h with h
        subst h
        refine ⟨hrun, all_takeWhile isCodeChar ds, Or.inl ?_⟩
        rw [heq, List.append_nil] at hsplit
        exact hsplit.symm
      · rename_i heq
        injection h with h
        subst h
        refine ⟨hrun, all_takeWhile isCodeChar ds, Or.inr ?_⟩
        rw [heq] at hsplit
        exact hsplit.symm
      · exact absurd h (by simp)
  · rintro ⟨hne, hall, hds | hds⟩
    · rw [hds]
      have h1 : g.takeWhile isCodeChar = g := by
        have h := @takeWhile_append_of_all isCodeChar g [] hall
        simpa using h
      have h2 : g.dropWhile isCodeChar = [] := by
        have h := @dropWhile_append_of_all isCodeChar g [] hall
        simpa using h
      simp [matchCore, h1, h2, hne]
    · rw [hds]
      have h1 : (g ++ ['/']).takeWhile isCodeChar = g := by
        rw [@takeWhile_append_of_all isCodeChar g ['/'] hall]
        simp [List.takeWhile_cons, isCodeChar_slash]
      have h2 : (g ++ ['/']).dropWhile isCodeChar = ['/'] := by
        rw [@dropWhile_append_of_all isCodeChar g ['/'] hall]
        simp [List.dropWhile_cons, isCodeChar_slash]
      simp [matchCore, h1, h2, hne]

/-- Boolean form of `NonCodeLast` for nonempty text. -/
def endsNonCode (a : List Char) : Bool :=
  match a.getLast? with
  | some c => !isCodeChar c
  | none => false

theorem endsNonCode_spec {a : List Char} (h : endsNonCode a = true) :
    ∃ c, a.getLast? = some c ∧ isCodeChar c = false := by
  unfold endsNonCode at h
  cases hl : a.getLast? with
  | none => rw [hl] at h; simp at h
  | some c =>
    rw [hl] at h
    simp only [Bool.not_eq_true'] at h
    exact ⟨c, rfl, h⟩

theorem endsNonCode_ne_nil {a : List Char} (h : endsNonCode a = true) : a ≠ [] := by
  intro hnil
  subst hnil
  simp [endsNonCode] at h

theorem endsNonCode_of_append {x a : List Char} (ha : endsNonCode a = true) :
    endsNonCode (x ++ a) = true := by
  unfold endsNonCode at ha ⊢
  rw [List.getLast?_append_of_ne_nil x (endsNonCode_ne_nil ha)]
  exact ha

theorem nonCodeLast_of {p : List Char} (hpe : p = [] ∨ endsNonCode p = true) :
    NonCodeLast p := by
  rcases hpe with rfl | h
  · exact Or.inl rfl
  · exact Or.inr (endsNonCode_spec h)

theorem endsNonCode_proto : protoAlts.all endsNonCode = true := by decide

theorem endsNonCode_www : wwwAlts.all endsNonCode = true := by decide

theorem endsNonCode_dom : domainAlts.all endsNonCode = true := by decide

theorem mem_optAlts {alts : List (List Char)} {ds e : List Char}
    (h : e ∈ optAlts alts ds) : e = ds ∨ ∃ a ∈ alts, ds = a ++ e := by
  simp only [optAlts, List.mem_append, List.mem_filterMap,
    List.mem_singleton] at h
  rcases h with ⟨a, ha, hs⟩ | h
  · exact Or.inr ⟨a, ha, stripLit_eq_some.mp hs⟩
  · exact Or.inl h

theorem mem_optAlts_decomp {alts : List (List Char)} {ds e : List Char}
    (hall : alts.all endsNonCode = true) (h : e ∈ optAlts alts ds) :
    ∃ p, ds = p ++ e ∧ (p = [] ∨ endsNonCode p = true) := by
  rcases mem_optAlts h with heq | ⟨a, ha, hae⟩
  · exact ⟨[], by rw [heq]; rfl, Or.inl rfl⟩
  · exact ⟨a, hae, Or.inr (List.all_eq_true.mp hall a ha)⟩

theorem combine_seg {x a : List Char} (hx : x = [] ∨ endsNonCode x = true)
    (ha : a = [] ∨ endsNonCode a = true) :
    x ++ a = [] ∨ endsNonCode (x ++ a) = true := by
  rcases ha with rfl | ha
  · simpa using hx
  · exact Or.inr (endsNonCode_of_append ha)

theorem candidates_sound {ds e : List Char} (h : e ∈ candidates ds) :
    ∃ p, ds = p ++ e ∧ (p = [] ∨ endsNonCode p = true) := by
  simp only [candidates, List.mem_flatMap] at h
  obtain ⟨d1, hd1, d2, hd2, he⟩ := h
  obtain ⟨p1, hp1, e1⟩ := mem_optAlts_decomp endsNonCode_proto hd1
  obtain ⟨p2, hp2, e2⟩ := mem_optAlts_decomp endsNonCode_www hd2
  obtain ⟨p3, hp3, e3⟩ := mem_optAlts_decomp endsNonCode_dom he
  refine ⟨p1 ++ (p2 ++ p3), ?_, combine_seg e1 (combine_seg e2 e3)⟩
  rw [hp1, hp2, hp3]
  simp [List.append_assoc]

/-- Soundness of a single-position match: any captured group is a trailing
code run of the searched text. -/
theorem matchAt_sound {ds g : List Char} (h : matchAt ds = some g) :
    Decomp ds g := by
  obtain ⟨e, he, hmc⟩ := List.exists_of_findSome?_eq_some h
  obtain ⟨hne, hall, hshape⟩ := matchCore_eq_some.mp hmc
  obtain ⟨p, hp, hpe⟩ := candidates_sound he
  refine ⟨hne, hall, p, ?_⟩
  rcases hshape with rfl | rfl
  · exact ⟨[], Or.inl rfl, nonCodeLast_of hpe, by rw [hp]; simp⟩
  · exact ⟨['/'], Or.inr rfl, nonCodeLast_of hpe, by rw [hp]; simp⟩

/-- A character of a literal that rules the literal out as a prefix of a
trailing run plus optional slash: neither a code character nor `/`. -/
def hasAlien (a : List Char) : Bool :=
  a.any fun c => !isCodeChar c && !(c == '/')

theorem hasAlien_proto : protoAlts.all hasAlien = true := by decide

theorem hasAlien_www : wwwAlts.all hasAlien = true := by decide

theorem hasAlien_dom : domainAlts.all hasAlien = true := by decide

theorem stripLit_none_of_alien {a g t : List Char}
    (halien : hasAlien a = true) (hall : g.all isCodeChar) (ht : TailOpt t) :
    stripLit a (g ++ t) = none := by
  cases hstrip : stripLit a (g ++ t) with
  | none => rfl
  | some e =>
    exfalso
    have hae := stripLit_eq_some.mp hstrip
    simp only [hasAlien, List.any_eq_true, Bool.and_eq_true,
      Bool.not_eq_true'] at halien
    obtain ⟨c, hca, hcode, hslash⟩ := halien
    have hcds : c ∈ g ++ t := by rw [hae]; exact List.mem_append_left _ hca
    rcases List.mem_append.mp hcds with hcg | hct
    · rw [List.all_eq_true.mp hall c hcg] at hcode
      exact Bool.true_eq_false.mp hcode
    · rcases ht with rfl | rfl
      · simp at hct
      · rw [List.mem_singleton.mp hct] at hslash
        simp at hslash

theorem optAlts_run_eq {alts : List (List Char)} {g t : List Char}
    (halien : alts.all hasAlien = true) (hall : g.all isCodeChar)
    (ht : TailOpt t) : optAlts alts (g ++ t) = [g ++ t] := by
  simp only [optAlts]
  have hnil : (alts.filterMap fun a => stripLit a (g ++ t)) = [] := by
    rw [List.filterMap_eq_nil_iff]
    intro a ha
    exact stripLit_none_of_alien (List.all_eq_true.mp halien a ha) hall ht
  rw [hnil]
  rfl

theorem candidates_run_eq {g t : List Char} (hall : g.all isCodeChar)
    (ht : TailOpt t) : candidates (g ++ t) = [g ++ t] := by
  simp [candidates, optAlts_run_eq hasAlien_proto hall ht,
    optAlts_run_eq hasAlien_www hall ht, optAlts_run_eq hasAlien_dom hall ht]

/-- Completeness at the start of the trailing run: the position matches and
captures the whole run. -/
theorem matchAt_run_eq {g t : List Char} (hne : g ≠ [])
    (hall : g.all isCodeChar) (ht : TailOpt t) :
    matchAt (g ++ t) = some g := by
  have hshape : g ++ t = g ∨ g ++ t = g ++ ['/'] := by
    rcases ht with rfl | rfl
    · exact Or.inl (by simp)
    · exact Or.inr rfl
  have hmc : matchCore (g ++ t) = some g :=
    matchCore_eq_some.mpr ⟨hne, hall, hshape⟩
  rw [matchAt, candidates_run_eq hall ht]
  simp [List.findSome?_cons, hmc]

theorem getLast_code {g : List Char} (hne : g ≠ []) (hall : g.all isCodeChar) :
    ∃ c, g.getLast? = some c ∧ isCodeChar c = true := by
  cases hgl : g.getLast? with
  | none => exact absurd (List.getLast?_eq_none_iff.mp hgl) hne
  | some c =>
    exact ⟨c, rfl, List.all_eq_true.mp hall c (List.mem_of_mem_getLast? hgl)⟩

/-- Whether the optional slash was taken is readable off the last character
of the searched text. -/
theorem tail_determined {ds g x t : List Char} (hne : g ≠ [])
    (hall : g.all isCodeChar) (ht : TailOpt t) (hds : ds = x ++ g ++ t) :
    t = ['/'] ↔ ds.getLast? = some '/' := by
  rcases ht with rfl | rfl
  · constructor
    · intro h; exact absurd h (by simp)
    · intro h
      exfalso
      obtain ⟨c, hgl, hcode⟩ := getLast_code hne hall
      rw [hds, List.append_nil] at h
      rw [List.getLast?_append_of_ne_nil x hne, hgl] at h
      rw [Option.some_inj.mp h] at hcode
      rw [isCodeChar_slash] at hcode
      exact Bool.false_ne_true hcode
  · constructor
    · intro _
      rw [hds]
      rw [List.getLast?_append_of_ne_nil (x ++ g) (by simp)]
      rfl
    · intro _; rfl

/-- The reverse of the trailing run is the maximal code prefix of the
reversed text. -/
theorem rev_run {x g : List Char} (hall : g.all isCodeChar)
    (hx : NonCodeLast x) :
    ((x ++ g).reverse).takeWhile isCodeChar = g.reverse := by
  rw [List.reverse_append]
  rw [takeWhile_append_of_all (by rw [List.all_reverse]; exact hall)]
  have hxr : x.reverse.takeWhile isCodeChar = [] := by
    rcases hx with rfl | ⟨c, hlast, hcode⟩
    · rfl
    · cases hxrev : x.reverse with
      | nil => rfl
      | cons c0 rest =>
        have hh : x.reverse.head? = some c0 := by rw [hxrev]; rfl
        rw [List.head?_reverse, hlast] at hh
        have hc0 : c0 = c := (Option.some_inj.mp hh).symm
        rw [List.takeWhile_cons, hc0, hcode]
        rfl
  rw [hxr, List.append_nil]

/-- The trailing-run decomposition is unique. -/
theorem decomp_unique {ds g g' : List Char} (h : Decomp ds g)
    (h' : Decomp ds g') : g = g' := by
  obtain ⟨hne, hall, x, t, ht, hx, hds⟩ := h
  obtain ⟨hne', hall', x', t', ht', hx', hds'⟩ := h'
  have hiff : t = ['/'] ↔ t' = ['/'] :=
    (tail_determined hne hall ht hds).trans
      (tail_determined hne' hall' ht' hds').symm
  have hTT : t = t' := by
    rcases ht with rfl | rfl <;> rcases ht' with rfl | rfl
    · rfl
    · exact absurd (hiff.mpr rfl) (by simp)
    · exact absurd (hiff.mp rfl) (by simp)
    · rfl
  have hxg : x ++ g = x' ++ g' := by
    have hh := hds.symm.trans hds'
    rw [hTT] at hh
    exact List.append_cancel_right hh
  have hrev : g.reverse = g'.reverse := by
    have r1 := rev_run hall hx
    rw [hxg, rev_run hall' hx'] at r1
    exact r1.symm
  have := congrArg List.reverse hrev
  simpa using this

theorem matchAt_nil : matchAt [] = none := by decide

theorem decomp_nil {g : List Char} : ¬ Decomp [] g := by
  rintro ⟨hne, _, x, t, _, _, hds⟩
  have hh := hds.symm
  rw [List.append_eq_nil] at hh
  rw [List.append_eq_nil] at hh
  exact hne hh.1.2

theorem nonCodeLast_tail {c : Char} {x : List Char}
    (h : NonCodeLast (c :: x)) : NonCodeLast x := by
  cases x with
  | nil => exact Or.inl rfl
  | cons y ys =>
    rcases h with h | ⟨c0, hlast, hcode⟩
    · exact absurd h (by simp)
    · rw [List.getLast?_cons_cons] at hlast
      exact Or.inr ⟨c0, hlast, hcode⟩

theorem nonCodeLast_cons {c : Char} {x : List Char} (hne : x ≠ [])
    (h : NonCodeLast x) : NonCodeLast (c :: x) := by
  cases x with
  | nil => exact absurd rfl hne
  | cons y ys =>
    rcases h with h | ⟨c0, hlast, hcode⟩
    · exact absurd h (by simp)
    · exact Or.inr ⟨c0, by rw [List.getLast?_cons_cons]; exact hlast, hcode⟩

/-- Full characterization of `re.search` with this pattern: it captures
exactly the maximal trailing code-character run (up to one trailing
slash), regardless of any of the optional URL prefixes. -/
theorem reSearch_iff : ∀ (ds g : List Char), reSearch ds = some g ↔ Decomp ds g := by
  intro ds
  induction ds with
  | nil =>
    intro g
    rw [reSearch, matchAt_nil]
    constructor
    · intro h; exact absurd h (by simp)
    · intro h; exact absurd h decomp_nil
  | cons c cs ih =>
    intro g
    constructor
    · intro h
      rw [reSearch] at h
      cases hm : matchAt (c :: cs) with
      | some g0 =>
        rw [hm] at h
        have hg : g0 = g := by simpa using h
        rw [hg] at hm
        exact matchAt_sound hm
      | none =>
        rw [hm] at h
        have hr : reSearch cs = some g := by simpa using h
        obtain ⟨hne, hall, x, t, ht, hx, hds⟩ := (ih g).mp hr
        refine ⟨hne, hall, c :: x, t, ht, ?_, by rw [hds]; rfl⟩
        rcases hx with rfl | ⟨c0, hlast, hcode⟩
        · cases hc : isCodeChar c with
          | true =>
            exfalso
            have hcs : cs = g ++ t := by simpa using hds
            have hmm : matchAt (c :: cs) = some (c :: g) := by
              have hsh : c :: cs = (c :: g) ++ t := by rw [hcs]; rfl
              rw [hsh]
              exact matchAt_run_eq (by simp) (by simp [hc, hall]) ht
            rw [hm] at hmm
            exact absurd hmm (by simp)
          | false =>
            exact Or.inr ⟨c, rfl, hc⟩
        · exact Or.inr ⟨c0, by
            cases x with
            | nil => exact absurd hlast (by simp)
            | cons y ys => rw [List.getLast?_cons_cons]; exact hlast, hcode⟩
    · intro hd
      obtain ⟨hne, hall, x, t, ht, hx, hds⟩ := hd
      cases x with
      | nil =>
        have hm : matchAt (c :: cs) = some g := by
          rw [show c :: cs = g ++ t from by simpa using hds]
          exact matchAt_run_eq hne hall ht
        rw [reSearch, hm]
      | cons c' x0 =>
        have hinj : c' = c ∧ cs = x0 ++ g ++ t := by
          have hh := hds
          simp only [List.cons_append] at hh
          exact ⟨(List.cons_eq_cons.mp hh).1.symm, (List.cons_eq_cons.mp hh).2⟩
        have hcs : Decomp cs g :=
          ⟨hne, hall, x0, t, ht, nonCodeLast_tail (by rw [hinj.1] at hx; exact hx),
            hinj.2⟩
        have hr : reSearch cs = some g := (ih g).mpr hcs
        rw [reSearch]
        cases hm : matchAt (c :: cs) with
        | none => simpa using hr
        | some g0 =>
          have hg0 : g0 = g :=
            decomp_unique (matchAt_sound hm) ⟨hne, hall, c' :: x0, t, ht, hx, hds⟩
          rw [hg0]

/-- Characterization of `normalize_invite` (shared helper, also the
content of the amended claim C3): a code is returned exactly when it is
the maximal trailing code-character run (up to one trailing slash) of the
stripped input. -/
theorem normalize_invite_decomp (s g : String) :
    normalize_invite s = some g ↔ Decomp (pyStrip s.data) g.data := by
  simp only [normalize_invite, normalize_invite_chars]
  by_cases hstrip : pyStrip s.data = []
  · rw [if_pos hstrip]
    constructor
    · intro h; exact absurd h (by simp)
    · intro h; rw [hstrip] at h; exact absurd h decomp_nil
  · rw [if_neg hstrip]
    cases hsearch : reSearch (pyStrip s.data) with
    | none =>
      constructor
      · intro h; exact absurd h (by simp)
      · intro h
        have hh := (reSearch_iff (pyStrip s.data) g.data).mpr h
        rw [hsearch] at hh
        exact absurd hh (by simp)
    | some gl =>
      constructor
      · intro h
        have hmk : String.mk gl = g := by simpa using h
        have hgl : gl = g.data := by rw [← hmk]
        rw [← hgl]
        exact (reSearch_iff (pyStrip s.data) gl).mp hsearch
      · intro h
        have hh := (reSearch_iff (pyStrip s.data) g.data).mpr h
        rw [hsearch] at hh
        have hgl : gl = g.data := by simpa using hh
        rw [hgl]
        rfl

theorem code_not_space {c : Char} (h : isCodeChar c = true) :
    isPySpace c = false := by
  cases hs : isPySpace c with
  | false => rfl
  | true =>
    exfalso
    simp only [isPySpace, Bool.or_eq_true, beq_iff_eq] at hs
    rcases hs with ((((rfl | rfl) | rfl) | rfl) | rfl) | rfl <;>
      exact absurd h (by decide)

theorem dropWhile_eq_self_of_none {p : Char → Bool} {l : List Char}
    (h : ∀ c ∈ l, p c = false) : l.dropWhile p = l := by
  cases l with
  | nil => rfl
  | cons c cs =>
    rw [List.dropWhile_cons, h c (List.mem_cons_self c cs)]
    rfl

theorem pyStrip_all_code {g : List Char} (hall : g.all isCodeChar = true) :
    pyStrip g = g := by
  unfold pyStrip
  have h1 : g.dropWhile isPySpace = g :=
    dropWhile_eq_self_of_none
      (fun c hc => code_not_space (List.all_eq_true.mp hall c hc))
  rw [h1]
  have h2 : g.reverse.dropWhile isPySpace = g.reverse :=
    dropWhile_eq_self_of_none
      (fun c hc => code_not_space (List.all_eq_true.mp hall c (by simpa using hc)))
  rw [h2, List.reverse_reverse]

/-! ## The spec's accepted input shapes

Modelled from the spec's words (section 4.1): bare code, or
`https?://` / bare, optional `www.`, one of the invite domains (including
the near-variant short-domain spellings actually written in the source
pattern), a code of letters/digits/hyphens, optional trailing slash. -/

/-- Strip a literal off the end of the input. -/
def stripTail (tl l : List Char) : Option (List Char) :=
  (stripLit tl.reverse l.reverse).map List.reverse

/-- A bare invite code: nonempty letters/digits/hyphens. -/
def isBareCode (l : List Char) : Bool :=
  !l.isEmpty && l.all isCodeChar

/-- Modelled from the spec: the domain spellings of the accepted URL
shapes (the documented ones plus the near-variant short-domain
spellings). -/
def accepted_domains : List String :=
  ["discord.com/invite/", "discordapp.com/invite/", "discord.gg/",
   "discod.gg/", "discd.gg/"]

/-- Modelled from the spec (section 4.1): does the input match one of the
accepted shapes — a bare code, or an invite URL built from an optional
scheme, optional `www.`, an accepted domain, a code, and an optional
trailing slash? -/
def accepted_shape (s : String) : Bool :=
  isBareCode s.data ||
  (["https://", "http://", ""].any fun proto =>
    (["www.", ""].any fun w =>
      accepted_domains.any fun dom =>
        (["/", ""].any fun slash =>
          match stripLit (proto ++ w ++ dom).data s.data with
          | some rest =>
            match stripTail slash.data rest with
            | some core => isBareCode core
            | none => false
          | none => false)))

/-! ## Configuration and mutable state (checker.py lines 13-60)

Config parsing is out of scope (per the specification); we keep the fields
the pipeline reads.  The Telegram credentials only feed the best-effort
notification, which touches none of the counters, the dedup set, or the
output files, so they are not part of the modelled state. -/

structure Config where
  min_members : Int
  max_members : Int
  min_members_online : Int
  min_boosts : Int
  use_proxies : Bool
  threads : Nat
  save_only_permanent_invites : Bool
deriving DecidableEq, Repr

structure Counter where
  hit : Nat
  bad : Nat
  failed : Nat
deriving DecidableEq, Repr

/-- The mutable globals of checker.py (`counter`, `checked_guild_ids`,
`deduped_proxies`) together with the append-only output files, each file
modelled as the list of lines appended so far. -/
structure CheckerState where
  counter : Counter
  checked_guild_ids : List String
  deduped_proxies : List String
  valid_txt : List String
  valid_ids_txt : List String
  bad_txt : List String
  invalid_txt : List String
  failed_txt : List String
deriving DecidableEq, Repr

/-- An entirely empty state: zero counters, empty set, empty files. -/
def CheckerState.empty : CheckerState :=
  { counter := { hit := 0, bad := 0, failed := 0 },
    checked_guild_ids := [], deduped_proxies := [],
    valid_txt := [], valid_ids_txt := [], bad_txt := [],
    invalid_txt := [], failed_txt := [] }

/-! ## Remote lookup data (the parsed 200-response body)

`send_request` (lines 80-98) returns `response.json()` on a 200 response
and `None` after logging on any caught failure (non-200 status, network
error or timeout, undecodable body).  `check_invite` then reads the dict:
`["type"]`, `["guild"]["id"]`, `["guild"]["name"]` raise `KeyError` when
absent (the dead-invite branch), while `expires_at`,
`premium_subscription_count`, `approximate_member_count` and
`approximate_presence_count` are read with `.get` and default to
`None` / `0`.  `Option` fields model exactly the keys that may be
absent. -/

structure GuildData where
  id : Option String
  name : Option String
  premium_subscription_count : Option Int
deriving DecidableEq, Repr

structure InviteResponse where
  type : Option Int
  expires_at : Option String
  guild : Option GuildData
  approximate_member_count : Option Int
  approximate_presence_count : Option Int
deriving DecidableEq, Repr

/-- Reasons printed on the `[BAD]` branches. -/
inductive BadReason
  | memberMismatch
  | notEnoughBoosts
  | notEnoughOnline
  | notPermanent
  | notServerInvite
deriving DecidableEq, Repr

/-- Per-candidate classification outcome (the print tags of checker.py). -/
inductive Outcome
  | hit
  | bad (r : BadReason)
  | duplicate
  | deadInvite
  | transportFail
deriving DecidableEq, Repr

/-- Append to `bad.txt` and increment the bad counter (the common effect of
every `[BAD]` threshold branch). -/
def logBad (invite_code : String) (st : CheckerState) : CheckerState :=
  { st with bad_txt := st.bad_txt ++ [invite_code],
            counter := { st.counter with bad := st.counter.bad + 1 } }

/-- The `[HIT]` effect: append to `valid.txt` and `valid_ids.txt`,
increment the hit counter (lines 189-197).  The subsequent Telegram
notification (lines 198-205) has no effect on this state. -/
def logHit (invite_code guild_id : String) (st : CheckerState) : CheckerState :=
  { st with valid_txt := st.valid_txt ++ [invite_code],
            valid_ids_txt := st.valid_ids_txt ++ [guild_id],
            counter := { st.counter with hit := st.counter.hit + 1 } }

/-- The transport-failure effect inside `send_request` (lines 93-98):
append to `failed.txt`, increment the failed counter. -/
def logFailed (invite_code : String) (st : CheckerState) : CheckerState :=
  { st with failed_txt := st.failed_txt ++ [invite_code],
            counter := { st.counter with failed := st.counter.failed + 1 } }

/-- The dead-invite (`KeyError`) effect (lines 285-289): append to
`invalid.txt`, increment the bad counter. -/
def logInvalid (invite_code : String) (st : CheckerState) : CheckerState :=
  { st with invalid_txt := st.invalid_txt ++ [invite_code],
            counter := { st.counter with bad := st.counter.bad + 1 } }

/-- `checked_guild_ids.add(guild_id)` (line 283): Python set insertion. -/
def insertGuildId (guild_id : String) (ids : List String) : List String :=
  if guild_id ∈ ids then ids else ids ++ [guild_id]

/-- `handle_result` (checker.py lines 141-205): the ordered threshold
checks, each `[BAD]` branch appending to `bad.txt`, bumping `bad`, and
returning. -/
def handle_result (cfg : Config) (invite_code guild_id _guild_name : String)
    (members_online members boosts : Int) (expires_at : Option String)
    (st : CheckerState) : Outcome × CheckerState :=
  let is_permanent := expires_at.isNone
  if ¬(cfg.min_members ≤ members ∧ members ≤ cfg.max_members) then
    (Outcome.bad BadReason.memberMismatch, logBad invite_code st)
  else if boosts < cfg.min_boosts then
    (Outcome.bad BadReason.notEnoughBoosts, logBad invite_code st)
  else if members_online < cfg.min_members_online then
    (Outcome.bad BadReason.notEnoughOnline, logBad invite_code st)
  else if cfg.save_only_permanent_invites && !is_permanent then
    (Outcome.bad BadReason.notPermanent, logBad invite_code st)
  else
    (Outcome.hit, logHit invite_code guild_id st)

/-- `check_invite` from the dedup membership test onward (lines 272-284),
with the membership test's result passed in as `wasSeen`.  This split
mirrors the two distinct accesses to the shared set: the read on line 272
and the insertion on line 283; the sequential `check_invite` composes
them immediately, the worker model below may interleave another worker in
between. -/
def dedup_onward (cfg : Config) (invite_code guild_id guild_name : String)
    (invite_type : Int) (members_online members boosts : Int)
    (expires_at : Option String) (wasSeen : Bool)
    (st : CheckerState) : Outcome × CheckerState :=
  if wasSeen then
    (Outcome.duplicate, st)
  else if invite_type ≠ 0 then
    (Outcome.bad BadReason.notServerInvite, logBad invite_code st)
  else
    handle_result cfg invite_code guild_id guild_name
      members_online members boosts expires_at
      { st with checked_guild_ids := insertGuildId guild_id st.checked_guild_ids }

/-- `check_invite` (checker.py lines 257-294).  `fetch` is the outcome of
`send_request`: `none` after a caught transport/parse failure (whose
logging effect is replayed here, matching lines 93-98), `some r` for a
parsed 200 body.  Missing `type`, `guild`, `guild.id` or `guild.name`
raise `KeyError` → the dead-invite branch. -/
def check_invite (cfg : Config) (fetch : Option InviteResponse)
    (invite_code : String) (st : CheckerState) : Outcome × CheckerState :=
  match fetch with
  | none => (Outcome.transportFail, logFailed invite_code st)
  | some r =>
    match r.type, r.guild with
    | some invite_type, some guild =>
      match guild.id, guild.name with
      | some guild_id, some guild_name =>
        dedup_onward cfg invite_code guild_id guild_name invite_type
          (r.approximate_presence_count.getD 0)
          (r.approximate_member_count.getD 0)
          (guild.premium_subscription_count.getD 0)
          r.expires_at
          (decide (guild_id ∈ st.checked_guild_ids)) st
      | _, _ => (Outcome.deadInvite, logInvalid invite_code st)
    | _, _ => (Outcome.deadInvite, logInvalid invite_code st)

/-! ## Cycle functions (checker.py lines 101-138, 297-307) -/

/-- `reset_state` (lines 101-106): zero the counters, clear the dedup set
and the proxy pool.  The on-disk logs are untouched. -/
def reset_state (st : CheckerState) : CheckerState :=
  { st with counter := { hit := 0, bad := 0, failed := 0 },
            checked_guild_ids := [],
            deduped_proxies := [] }

/-- `load_proxies` (lines 109-120): append each stripped nonempty line not
already present. -/
def load_proxies (lines : List String) (st : CheckerState) : CheckerState :=
  let pool := lines.foldl
    (fun acc line =>
      let p := String.mk (pyStrip line.data)
      if p ≠ "" ∧ p ∉ acc then acc ++ [p] else acc)
    st.deduped_proxies
  { st with deduped_proxies := pool }

/-- `load_invites` (lines 123-138): normalize each line, drop failures,
dedup keeping first occurrences in order. -/
def load_invites (lines : List String) : List String :=
  lines.foldl
    (fun acc line =>
      match normalize_invite line with
      | none => acc
      | some c => if c ∈ acc then acc else acc ++ [c])
    []

/-- `run_checker_once` (lines 297-307), with the thread-pool `map`
determinized to a left fold over the deduplicated candidates.  `env` gives
each code's remote response (the lookup result of `send_request`). -/
def run_checker_once (cfg : Config) (env : String → Option InviteResponse)
    (proxyLines inviteLines : List String) (st : CheckerState) : CheckerState :=
  let st1 := reset_state st
  let st2 := load_proxies proxyLines st1
  let codes := load_invites inviteLines
  codes.foldl (fun s code => (check_invite cfg (env code) code s).2) st2

/-! ## Two-worker interleaving model for the thread pool

`run_checker_once` dispatches `check_invite` over a `ThreadPoolExecutor`
(lines 302-303).  Per worker, the request and JSON parsing are
thread-local; the shared state is touched at two separate points: the
membership test `guild_id in checked_guild_ids` (line 272) and, later,
`checked_guild_ids.add(guild_id)` (line 283, inside `dedup_onward`).  The
interpreter may switch threads between these two statements, so we model a
worker as two atomic steps with exactly that split: step one records the
membership test's result, step two runs the rest of `check_invite`
(`dedup_onward`) with the recorded result. -/

/-- The thread-local data a worker holds after its successful lookup and
parse, for a genuine server-invite response. -/
structure WorkerCtx where
  invite_code : String
  guild_id : String
  guild_name : String
  invite_type : Int
  members_online : Int
  members : Int
  boosts : Int
  expires_at : Option String
deriving DecidableEq, Repr

/-- A worker's program counter across its two shared-state steps. -/
inductive WPhase
  | start
  | checkedSeen (wasSeen : Bool)
  | finished (o : Outcome)
deriving DecidableEq, Repr

/-- One atomic step of a worker: first the line-272 membership read, then
the remainder of `check_invite` using the recorded answer. -/
def workerAct (cfg : Config) (ctx : WorkerCtx) :
    WPhase × CheckerState → WPhase × CheckerState
  | (WPhase.start, st) =>
    (WPhase.checkedSeen (decide (ctx.guild_id ∈ st.checked_guild_ids)), st)
  | (WPhase.checkedSeen b, st) =>
    let r := dedup_onward cfg ctx.invite_code ctx.guild_id ctx.guild_name
      ctx.invite_type ctx.members_online ctx.members ctx.boosts
      ctx.expires_at b st
    (WPhase.finished r.1, r.2)
  | (WPhase.finished o, st) => (WPhase.finished o, st)

/-- Two workers sharing the checker state. -/
structure TwoWorkers where
  p1 : WPhase
  p2 : WPhase
  shared : CheckerState
deriving DecidableEq, Repr

/-- Run one scheduled step: `true` advances worker 1, `false` worker 2. -/
def schedStep (cfg : Config) (c1 c2 : WorkerCtx) (w : Bool)
    (s : TwoWorkers) : TwoWorkers :=
  if w then
    let r := workerAct cfg c1 (s.p1, s.shared)
    { s with p1 := r.1, shared := r.2 }
  else
    let r := workerAct cfg c2 (s.p2, s.shared)
    { s with p2 := r.1, shared := r.2 }

/-- Run a schedule (a list of worker choices). -/
def runSched (cfg : Config) (c1 c2 : WorkerCtx) (sched : List Bool)
    (s : TwoWorkers) : TwoWorkers :=
  sched.foldl (fun s w => schedStep cfg c1 c2 w s) s

/-- Fidelity of the split: the sequential `check_invite` on a parsed
genuine response is exactly the worker's two steps run back to back. -/
theorem check_invite_eq_two_steps (cfg : Config) (ctx : WorkerCtx)
    (st : CheckerState) :
    (workerAct cfg ctx (workerAct cfg ctx (WPhase.start, st))).1 =
      WPhase.finished (check_invite cfg
        (some { type := some ctx.invite_type, expires_at := ctx.expires_at,
                guild := some { id := some ctx.guild_id,
                                name := some ctx.guild_name,
                                premium_subscription_count := some ctx.boosts },
                approximate_member_count := some ctx.members,
                approximate_presence_count := some ctx.members_online })
        ctx.invite_code st).1 ∧
    (workerAct cfg ctx (workerAct cfg ctx (WPhase.start, st))).2 =
      (check_invite cfg
        (some { type := some ctx.invite_type, expires_at := ctx.expires_at,
                guild := some { id := some ctx.guild_id,
                                name := some ctx.guild_name,
                                premium_subscription_count := some ctx.boosts },
                approximate_member_count := some ctx.members,
                approximate_presence_count := some ctx.members_online })
        ctx.invite_code st).2 := by
  constructor <;> rfl

/-! ## Concrete fixtures used by witnesses and counterexamples -/

/-- A permissive sample configuration. -/
def cfg0 : Config :=
  { min_members := 10, max_members := 1000, min_members_online := 0,
    min_boosts := 0, use_proxies := false, threads := 2,
    save_only_permanent_invites := false }

/-- A genuine server-invite response (type 0) for guild `G1`. -/
def respServer : InviteResponse :=
  { type := some 0, expires_at := none,
    guild := some { id := some "G1", name := some "Guild One",
                    premium_subscription_count := some 0 },
    approximate_member_count := some 50,
    approximate_presence_count := some 5 }

/-- A group-DM invite response (type 2) for guild `G1`. -/
def respGroupDm : InviteResponse :=
  { type := some 2, expires_at := none,
    guild := some { id := some "G1", name := some "Guild One",
                    premium_subscription_count := some 0 },
    approximate_member_count := some 50,
    approximate_presence_count := some 5 }

/-- A server-invite response with every optional field absent. -/
def respDefaults : InviteResponse :=
  { type := some 0, expires_at := none,
    guild := some { id := some "G1", name := some "Guild One",
                    premium_subscription_count := none },
    approximate_member_count := none,
    approximate_presence_count := none }

/-- Worker context for candidate `codeA` resolving to guild `G1`. -/
def ctxA : WorkerCtx :=
  { invite_code := "codeA", guild_id := "G1", guild_name := "Guild One",
    invite_type := 0, members_online := 5, members := 50, boosts := 0,
    expires_at := none }

/-- Worker context for candidate `codeB` resolving to the same guild. -/
def ctxB : WorkerCtx :=
  { invite_code := "codeB", guild_id := "G1", guild_name := "Guild One",
    invite_type := 0, members_online := 5, members := 50, boosts := 0,
    expires_at := none }

/-! ## Claim C1: classification of non-server invite types -/

/-- Claim C1, counterexample.  A successfully fetched group-DM invite
(type 2) for the unseen guild `G1` is classified bad (not a server
invite), logged to the bad list, and counted — but, contrary to the
claim, the guild identifier is NOT recorded in the dedup tracker: the
early return on the wrong-type branch precedes the insertion into
`checked_guild_ids`. -/
theorem C1_not_recorded_counterexample :
    (check_invite cfg0 (some respGroupDm) "c1" CheckerState.empty).1
        = Outcome.bad BadReason.notServerInvite ∧
    (check_invite cfg0 (some respGroupDm) "c1" CheckerState.empty).2.bad_txt
        = ["c1"] ∧
    (check_invite cfg0 (some respGroupDm) "c1" CheckerState.empty).2.counter.bad
        = 1 ∧
    (check_invite cfg0 (some respGroupDm) "c1" CheckerState.empty).2.checked_guild_ids
        = [] := by
  decide

/-- Claim C1, amended: for every successfully fetched result whose invite
kind is not 0 and whose guild identifier is not yet recorded, processing
classifies it as bad (wrong type), appends the code to the bad log, and
increments the bad counter — and leaves the dedup tracker unchanged: the
guild identifier is not recorded as seen. -/
theorem C1_wrong_type_amended (cfg : Config) (r : InviteResponse)
    (invite_code : String) (st : CheckerState)
    (ty : Int) (g : GuildData) (gid gname : String)
    (hty : r.type = some ty) (hg : r.guild = some g)
    (hid : g.id = some gid) (hname : g.name = some gname)
    (hkind : ty ≠ 0) (hseen : gid ∉ st.checked_guild_ids) :
    check_invite cfg (some r) invite_code st
        = (Outcome.bad BadReason.notServerInvite, logBad invite_code st) ∧
    (check_invite cfg (some r) invite_code st).2.checked_guild_ids
        = st.checked_guild_ids := by
  have hmain : check_invite cfg (some r) invite_code st
      = (Outcome.bad BadReason.notServerInvite, logBad invite_code st) := by
    simp only [check_invite, hty, hg, hid, hname, dedup_onward,
      decide_eq_true_eq]
    rw [if_neg (by simpa using hseen), if_pos hkind]
  exact ⟨hmain, by rw [hmain]; rfl⟩

/-- Claim C1 amended, witness at the group-DM fixture. -/
theorem C1_wrong_type_amended_witness :
    check_invite cfg0 (some respGroupDm) "c1" CheckerState.empty
        = (Outcome.bad BadReason.notServerInvite,
           logBad "c1" CheckerState.empty) :=
  (C1_wrong_type_amended cfg0 respGroupDm "c1" CheckerState.empty
    2 { id := some "G1", name := some "Guild One",
        premium_subscription_count := some 0 } "G1" "Guild One"
    rfl rfl rfl rfl (by decide) (by decide)).1

/-! ## Claim C2: the guild-identity check-and-insert race -/

/-- Claim C2: the check of the seen-set (line 272) and the insertion into
it (line 283) are separate steps, not atomic as a unit, so the claimed
property fails: under the interleaved schedule in which both workers
perform their membership read before either performs its insertion, two
concurrently-dispatched candidates resolving to the same guild `G1` are
BOTH accepted as non-duplicate and independently classified as hits (hit
counter reaches 2), whereas the claim requires exactly one classification
and one duplicate-skip.  Under the non-interleaved schedule the code does
behave as claimed: one hit and one duplicate-skip. -/
theorem C2_race_both_accepted :
    (runSched cfg0 ctxA ctxB [true, false, true, false]
        { p1 := WPhase.start, p2 := WPhase.start,
          shared := CheckerState.empty }).p1
      = WPhase.finished Outcome.hit ∧
    (runSched cfg0 ctxA ctxB [true, false, true, false]
        { p1 := WPhase.start, p2 := WPhase.start,
          shared := CheckerState.empty }).p2
      = WPhase.finished Outcome.hit ∧
    (runSched cfg0 ctxA ctxB [true, false, true, false]
        { p1 := WPhase.start, p2 := WPhase.start,
          shared := CheckerState.empty }).shared.counter.hit
      = 2 ∧
    (runSched cfg0 ctxA ctxB [true, true, false, false]
        { p1 := WPhase.start, p2 := WPhase.start,
          shared := CheckerState.empty }).p1
      = WPhase.finished Outcome.hit ∧
    (runSched cfg0 ctxA ctxB [true, true, false, false]
        { p1 := WPhase.start, p2 := WPhase.start,
          shared := CheckerState.empty }).p2
      = WPhase.finished Outcome.duplicate := by
  decide

/-! ## Claim C3: what the normalizer accepts -/

/-- Claim C3, counterexample.  The input `"hello world"` matches none of
the accepted shapes (it is not a bare code and not an invite URL), yet
the normalizer does not return nothing: since the pattern's prefixes are
all optional and the code is extracted by an unanchored search, the
trailing segment `"world"` is returned. -/
theorem C3_shape_counterexample :
    accepted_shape "hello world" = false ∧
    normalize_invite "hello world" = some "world" := by
  constructor
  · decide
  · decide

/-- Claim C3, amended: the normalizer returns nothing for blank input and
for any input whose stripped text does not end in a nonempty run of
letters/digits/hyphens followed by at most one slash; for every other
input — the accepted shapes included, but also any other text ending in
such a run — it returns exactly that maximal trailing run. -/
theorem C3_normalizer_amended (s g : String) :
    normalize_invite s = some g ↔ Decomp (pyStrip s.data) g.data :=
  normalize_invite_decomp s g

/-! ## Claim C9: idempotence of normalization -/

/-- Claim C9: normalization is idempotent — whenever the normalizer
yields a code, applying it to that code returns the same code again. -/
theorem C9_normalize_idempotent (s g : String)
    (h : normalize_invite s = some g) : normalize_invite g = some g := by
  obtain ⟨hne, hall, _⟩ := (normalize_invite_decomp s g).mp h
  refine (normalize_invite_decomp g g).mpr ?_
  refine ⟨hne, hall, [], [], Or.inl rfl, Or.inl rfl, ?_⟩
  rw [pyStrip_all_code hall]
  simp

/-- Claim C9, witness: the URL fixture normalizes to `xyz`, and `xyz`
re-normalizes to itself. -/
theorem C9_normalize_idempotent_witness :
    normalize_invite "xyz" = some "xyz" :=
  C9_normalize_idempotent "https://discod.gg/xyz" "xyz" (by decide)

/-! ## Claim C4: cycle isolation -/

/-- Observable part of the state that the per-candidate pipeline reads:
the counters and the guild-identity set (the output files are write-only
for the pipeline). -/
def ObsEq (s s' : CheckerState) : Prop :=
  s.counter = s'.counter ∧ s.checked_guild_ids = s'.checked_guild_ids

/-- Modelled from the spec's words (section 4.4 step 4): evaluate the
threshold predicates in the fixed order (a) inclusive member bounds,
(b) minimum boosts, (c) minimum online members, (d) permanence when
configured, short-circuiting at the first failure. -/
def spec_first_failure (cfg : Config) (members_online members boosts : Int)
    (is_permanent : Bool) : Option BadReason :=
  if ¬(cfg.min_members ≤ members ∧ members ≤ cfg.max_members) then
    some BadReason.memberMismatch
  else if boosts < cfg.min_boosts then
    some BadReason.notEnoughBoosts
  else if members_online < cfg.min_members_online then
    some BadReason.notEnoughOnline
  else if cfg.save_only_permanent_invites && !is_permanent then
    some BadReason.notPermanent
  else
    none

/-- `handle_result` as the spec's ordered short-circuiting predicate list
(shared helper, also the content of claim C6). -/
theorem handle_result_spec_eq (cfg : Config)
    (invite_code guild_id guild_name : String)
    (members_online members boosts : Int) (expires_at : Option String)
    (st : CheckerState) :
    handle_result cfg invite_code guild_id guild_name members_online
        members boosts expires_at st
      = match spec_first_failure cfg members_online members boosts
            expires_at.isNone with
        | some r => (Outcome.bad r, logBad invite_code st)
        | none => (Outcome.hit, logHit invite_code guild_id st) := by
  simp only [handle_result, spec_first_failure]
  split
  · rfl
  · split
    · rfl
    · split
      · rfl
      · split <;> rfl

theorem handle_result_obs (cfg : Config)
    (invite_code guild_id guild_name : String)
    (members_online members boosts : Int) (expires_at : Option String)
    (s s' : CheckerState) (h : ObsEq s s') :
    (handle_result cfg invite_code guild_id guild_name members_online
        members boosts expires_at s).1
      = (handle_result cfg invite_code guild_id guild_name members_online
        members boosts expires_at s').1 ∧
    ObsEq
      (handle_result cfg invite_code guild_id guild_name members_online
        members boosts expires_at s).2
      (handle_result cfg invite_code guild_id guild_name members_online
        members boosts expires_at s').2 := by
  obtain ⟨hc, hg⟩ := h
  rw [handle_result_spec_eq, handle_result_spec_eq]
  cases spec_first_failure cfg members_online members boosts
      expires_at.isNone with
  | some r => exact ⟨rfl, by simp [ObsEq, logBad, hc, hg]⟩
  | none => exact ⟨rfl, by simp [ObsEq, logHit, hc, hg]⟩

theorem check_invite_obs (cfg : Config) (fetch : Option InviteResponse)
    (invite_code : String) (s s' : CheckerState) (h : ObsEq s s') :
    (check_invite cfg fetch invite_code s).1
      = (check_invite cfg fetch invite_code s').1 ∧
    ObsEq (check_invite cfg fetch invite_code s).2
      (check_invite cfg fetch invite_code s').2 := by
  obtain ⟨hc, hg⟩ := h
  cases fetch with
  | none =>
    exact ⟨by simp [check_invite], by simp [ObsEq, check_invite, logFailed, hc, hg]⟩
  | some r =>
    cases hty : r.type with
    | none =>
      exact ⟨by simp [check_invite, hty],
        by simp [ObsEq, check_invite, logInvalid, hty, hc, hg]⟩
    | some ty =>
      cases hgu : r.guild with
      | none =>
        exact ⟨by simp [check_invite, hty, hgu],
          by simp [ObsEq, check_invite, logInvalid, hty, hgu, hc, hg]⟩
      | some g =>
        cases hid : g.id with
        | none =>
          exact ⟨by simp [check_invite, hty, hgu, hid],
            by simp [ObsEq, check_invite, logInvalid, hty, hgu, hid, hc, hg]⟩
        | some gid =>
          cases hname : g.name with
          | none =>
            exact ⟨by simp [check_invite, hty, hgu, hid, hname],
              by simp [ObsEq, check_invite, logInvalid, hty, hgu, hid, hname,
                hc, hg]⟩
          | some gname =>
            simp only [check_invite, hty, hgu, hid, hname, dedup_onward, hg]
            cases hb : decide (gid ∈ s'.checked_guild_ids) with
            | true =>
              rw [if_pos rfl, if_pos rfl]
              exact ⟨rfl, hc, hg⟩
            | false =>
              simp only [Bool.false_eq_true, if_false]
              by_cases hty0 : ty ≠ 0
              · rw [if_pos hty0, if_pos hty0]
                exact ⟨rfl, by simp [ObsEq, logBad, hc, hg]⟩
              · rw [if_neg hty0, if_neg hty0]
                exact handle_result_obs cfg invite_code gid gname
                  (r.approximate_presence_count.getD 0)
                  (r.approximate_member_count.getD 0)
                  (g.premium_subscription_count.getD 0) r.expires_at
                  _ _ ⟨hc, by simp [hg]⟩

theorem fold_check_obs (cfg : Config) (env : String → Option InviteResponse) :
    ∀ (codes : List String) (s s' : CheckerState), ObsEq s s' →
      ObsEq (codes.foldl (fun t code => (check_invite cfg (env code) code t).2) s)
        (codes.foldl (fun t code => (check_invite cfg (env code) code t).2) s') := by
  intro codes
  induction codes with
  | nil => intro s s' h; exact h
  | cons c cs ih =>
    intro s s' h
    exact ih _ _ (check_invite_obs cfg (env c) c s s' h).2

/-- Claim C4: each scheduled cycle resets the counters, the guild-identity
seen-set, and the proxy pool before reloading inputs, so the per-cycle
counters of `run_checker_once` are independent of the starting state — in
particular, a second consecutive cycle on identical inputs and identical
remote responses produces identical counters, with no suppression carried
over from the first cycle's seen-set. -/
theorem C4_cycle_isolation (cfg : Config)
    (env : String → Option InviteResponse)
    (proxyLines inviteLines : List String) (st st' : CheckerState) :
    (run_checker_once cfg env proxyLines inviteLines st).counter
      = (run_checker_once cfg env proxyLines inviteLines st').counter ∧
    (run_checker_once cfg env proxyLines inviteLines
        (run_checker_once cfg env proxyLines inviteLines st)).counter
      = (run_checker_once cfg env proxyLines inviteLines st).counter ∧
    (reset_state st).counter = { hit := 0, bad := 0, failed := 0 } ∧
    (reset_state st).checked_guild_ids = [] ∧
    (reset_state st).deduped_proxies = [] := by
  have key : ∀ t t' : CheckerState,
      (run_checker_once cfg env proxyLines inviteLines t).counter
        = (run_checker_once cfg env proxyLines inviteLines t').counter := by
    intro t t'
    have h : ObsEq (load_proxies proxyLines (reset_state t))
        (load_proxies proxyLines (reset_state t')) := ⟨rfl, rfl⟩
    exact (fold_check_obs cfg env (load_invites inviteLines) _ _ h).1
  exact ⟨key st st', key _ st, rfl, rfl, rfl⟩

/-! ## Claim C5: inclusive member bounds -/

/-- Claim C5: the member-count predicate is inclusive on both ends.  With
`min_members ≤ max_members`, a result with exactly `min_members` or
exactly `max_members` members passes the member-bound check (is never
rejected with the member-mismatch reason), while `min_members - 1`
members is rejected as bad with the member-mismatch reason, appended to
the bad log and counted. -/
theorem C5_member_bounds_inclusive (cfg : Config)
    (invite_code guild_id guild_name : String)
    (members_online boosts : Int) (expires_at : Option String)
    (st : CheckerState) (hle : cfg.min_members ≤ cfg.max_members) :
    (handle_result cfg invite_code guild_id guild_name members_online
        cfg.min_members boosts expires_at st).1
      ≠ Outcome.bad BadReason.memberMismatch ∧
    (handle_result cfg invite_code guild_id guild_name members_online
        cfg.max_members boosts expires_at st).1
      ≠ Outcome.bad BadReason.memberMismatch ∧
    handle_result cfg invite_code guild_id guild_name members_online
        (cfg.min_members - 1) boosts expires_at st
      = (Outcome.bad BadReason.memberMismatch, logBad invite_code st) := by
  refine ⟨?_, ?_, ?_⟩
  · simp only [handle_result]
    rw [if_neg (by simp [le_refl, hle])]
    split
    · simp
    · split
      · simp
      · split <;> simp
  · simp only [handle_result]
    rw [if_neg (by simp [le_refl, hle])]
    split
    · simp
    · split
      · simp
      · split <;> simp
  · simp only [handle_result]
    rw [if_pos]
    intro h
    omega

/-- Claim C5, witness at the sample configuration. -/
theorem C5_member_bounds_inclusive_witness :
    (handle_result cfg0 "c1" "G1" "Guild One" 5 cfg0.min_members 0 none
        CheckerState.empty).1 ≠ Outcome.bad BadReason.memberMismatch :=
  (C5_member_bounds_inclusive cfg0 "c1" "G1" "Guild One" 5 0 none
    CheckerState.empty (by decide)).1

/-! ## Claim C6: fixed threshold order with short-circuit -/

/-- Claim C6: for a genuine non-duplicate server-invite result, the
threshold predicates run in the spec's fixed order — member bounds, then
boosts, then online members, then (if configured) permanence — with
short-circuit at the first failure; each failure performs exactly one
bad-log append and one bad-counter increment (`logBad`), and if no
predicate fails the result is a hit. -/
theorem C6_threshold_order (cfg : Config)
    (invite_code guild_id guild_name : String)
    (members_online members boosts : Int) (expires_at : Option String)
    (st : CheckerState) :
    handle_result cfg invite_code guild_id guild_name members_online
        members boosts expires_at st
      = match spec_first_failure cfg members_online members boosts
            expires_at.isNone with
        | some r => (Outcome.bad r, logBad invite_code st)
        | none => (Outcome.hit, logHit invite_code guild_id st) :=
  handle_result_spec_eq cfg invite_code guild_id guild_name members_online
    members boosts expires_at st

/-! ## Claim C7: transport failure is terminal -/

/-- Claim C7: a candidate whose remote lookup fails (non-200 status,
network error, or malformed body — all caught inside `send_request` and
returned as `none`) increments the failed counter by one, appends the
code to the failure log, and terminates processing there: no other
counter, log, or the dedup tracker changes, and no further classification
happens. -/
theorem C7_transport_failure_terminal (cfg : Config) (invite_code : String)
    (st : CheckerState) :
    check_invite cfg none invite_code st
        = (Outcome.transportFail, logFailed invite_code st) ∧
    (check_invite cfg none invite_code st).2.counter.failed
        = st.counter.failed + 1 ∧
    (check_invite cfg none invite_code st).2.failed_txt
        = st.failed_txt ++ [invite_code] ∧
    (check_invite cfg none invite_code st).2.counter.hit = st.counter.hit ∧
    (check_invite cfg none invite_code st).2.counter.bad = st.counter.bad ∧
    (check_invite cfg none invite_code st).2.checked_guild_ids
        = st.checked_guild_ids ∧
    (check_invite cfg none invite_code st).2.valid_txt = st.valid_txt ∧
    (check_invite cfg none invite_code st).2.valid_ids_txt = st.valid_ids_txt ∧
    (check_invite cfg none invite_code st).2.bad_txt = st.bad_txt ∧
    (check_invite cfg none invite_code st).2.invalid_txt = st.invalid_txt := by
  exact ⟨rfl, rfl, rfl, rfl, rfl, rfl, rfl, rfl, rfl, rfl⟩

/-! ## Claim C8: duplicate guild changes nothing -/

/-- Claim C8: when a fetched result's guild identifier is already present
in the dedup tracker, the candidate is classified a duplicate and the
state is returned untouched — no counter change, no log write, and the
seen-set unchanged. -/
theorem C8_duplicate_frame (cfg : Config) (r : InviteResponse)
    (invite_code : String) (st : CheckerState)
    (ty : Int) (g : GuildData) (gid gname : String)
    (hty : r.type = some ty) (hg : r.guild = some g)
    (hid : g.id = some gid) (hname : g.name = some gname)
    (hseen : gid ∈ st.checked_guild_ids) :
    check_invite cfg (some r) invite_code st = (Outcome.duplicate, st) := by
  simp only [check_invite, hty, hg, hid, hname, dedup_onward]
  rw [if_pos (by simpa using hseen)]

/-- Claim C8, witness at a state that has already seen guild `G1`. -/
theorem C8_duplicate_frame_witness :
    check_invite cfg0 (some respServer) "c2"
        { CheckerState.empty with checked_guild_ids := ["G1"] }
      = (Outcome.duplicate,
         { CheckerState.empty with checked_guild_ids := ["G1"] }) :=
  C8_duplicate_frame cfg0 respServer "c2"
    { CheckerState.empty with checked_guild_ids := ["G1"] }
    0 { id := some "G1", name := some "Guild One",
        premium_subscription_count := some 0 } "G1" "Guild One"
    rfl rfl rfl rfl (by decide)

/-! ## Claim C10: missing optional fields default, never dead -/

/-- Replace each absent optional numeric field by its `.get` default and
keep everything else, mirroring lines 264-270. -/
def fillDefault1 (g : GuildData) : GuildData :=
  { g with premium_subscription_count := some (g.premium_subscription_count.getD 0) }

def fillDefaults (r : InviteResponse) : InviteResponse :=
  { r with
    guild := r.guild.map fillDefault1,
    approximate_member_count := some (r.approximate_member_count.getD 0),
    approximate_presence_count := some (r.approximate_presence_count.getD 0) }

/-- Claim C10: a 200 response carrying the invite type and the guild
identity fields is never classified a dead invite merely because optional
fields are absent: (i) with type and guild id/name present the outcome is
never `deadInvite`; (ii) classification of any response equals
classification of the same response with absent member/online/boost
counts replaced by 0; (iii) an absent expiration field means permanent —
the result is never rejected for non-permanence. -/
theorem C10_optional_defaults (cfg : Config) (r : InviteResponse)
    (invite_code : String) (st : CheckerState) :
    (∀ (ty : Int) (g : GuildData) (gid gname : String),
        r.type = some ty → r.guild = some g → g.id = some gid →
        g.name = some gname →
        (check_invite cfg (some r) invite_code st).1 ≠ Outcome.deadInvite) ∧
    check_invite cfg (some r) invite_code st
        = check_invite cfg (some (fillDefaults r)) invite_code st ∧
    (r.expires_at = none →
        (check_invite cfg (some r) invite_code st).1
          ≠ Outcome.bad BadReason.notPermanent) := by
  refine ⟨?_, ?_, ?_⟩
  · intro ty g gid gname hty hg hid hname
    simp only [check_invite, hty, hg, hid, hname, dedup_onward]
    split
    · simp
    · split
      · simp
      · simp only [handle_result]
        split
        · simp
        · split
          · simp
          · split
            · simp
            · split <;> simp
  · cases hg : r.guild with
    | none => simp [check_invite, fillDefaults, hg]
    | some g =>
      cases hty : r.type with
      | none => simp [check_invite, fillDefaults, fillDefault1, hg, hty]
      | some ty =>
        cases hid : g.id with
        | none => simp [check_invite, fillDefaults, fillDefault1, hg, hty, hid]
        | some gid =>
          cases hname : g.name with
          | none =>
            simp [check_invite, fillDefaults, fillDefault1, hg, hty, hid, hname]
          | some gname =>
            simp [check_invite, fillDefaults, fillDefault1, hg, hty, hid, hname]
  · intro hexp
    cases hg : r.guild with
    | none => simp [check_invite, hg]
    | some g =>
      cases hty : r.type with
      | none => simp [check_invite, hg, hty]
      | some ty =>
        cases hid : g.id with
        | none => simp [check_invite, hg, hty, hid]
        | some gid =>
          cases hname : g.name with
          | none => simp [check_invite, hg, hty, hid, hname]
          | some gname =>
            simp only [check_invite, hg, hty, hid, hname, dedup_onward]
            split
            · simp
            · split
              · simp
              · simp only [handle_result, hexp, Option.isNone_none,
                  Bool.not_true, Bool.and_false]
                split
                · simp
                · split
                  · simp
                  · split
                    · simp
                    · simp

/-- Claim C10, witness: with all optional fields absent the fixture is
still parsed (not dead). -/
theorem C10_optional_defaults_witness :
    (check_invite cfg0 (some respDefaults) "c1" CheckerState.empty).1
      ≠ Outcome.deadInvite :=
  (C10_optional_defaults cfg0 respDefaults "c1" CheckerState.empty).1
    0 { id := some "G1", name := some "Guild One",
        premium_subscription_count := none } "G1" "Guild One"
    rfl rfl rfl rfl

end InviteChecker
